import Mathlib

/-!
Verification of the Monte Carlo risk-analysis engine
(`src/apex/services/risk_analysis.py`).

Shallow embedding conventions:
* Machine floats are modelled by `ℚ`.  Transcendental numerical routines
  (scipy inverse CDFs, `np.linalg.cholesky`, the float square root used by
  `np.std` / `np.corrcoef`, and the Latin-Hypercube sampler) cannot be
  represented exactly; they are collected in an `Oracle` record of abstract
  functions, and every theorem quantifies over the oracle, so the theorems
  hold for the actual numerical routines in particular.  All control flow,
  validation, ranking, sorting, percentile interpolation, matrix products
  and reordering logic are embedded exactly and are executable.
* Python exceptions are modelled by `Except`: `ValueError` raised in
  `_transform_samples` / `_apply_iman_conover` and `BusinessRuleViolation`
  raised in `_validate_correlation_matrix`.
* `np.random.seed` and the seeded `qmc.LatinHypercube` make the sampler a
  deterministic function of `(seed, iterations, n_vars)`; the oracle field
  `lhsSample` models it as such a function.
-/

namespace Apex

/-- Round-half-to-even to an integer, the rounding used by Python `round`
on floats (bankers rounding).  On non-ties it agrees with ordinary rounding
to nearest. -/
def rheF {α : Type} [LinearOrderedField α] [FloorRing α] (x : α) : ℤ :=
  if Int.fract x = 1 / 2 then (if ⌊x⌋ % 2 = 0 then ⌊x⌋ else ⌊x⌋ + 1) else round x

/-- `round(value, 2)` from the source: round to 2 decimal places. -/
def round2 (x : ℚ) : ℚ := (rheF (x * 100) : ℚ) / 100

/-- `round(value, 4)` from the source: round to 4 decimal places. -/
def round4 (x : ℚ) : ℚ := (rheF (x * 10000) : ℚ) / 10000

/-- Real-number semantics of `round(value, 4)`, used to state bounds about
coefficients whose exact value involves a square root. -/
noncomputable def round4R (x : ℝ) : ℝ := (rheF (x * 10000) : ℝ) / 10000

/-- Python `str.lower()` as used on distribution names (the engine only
compares against ASCII literals; per character this is `Char.toLower`). -/
def strLower (s : String) : String := String.mk (s.data.map Char.toLower)

/-- `RiskFactor` dataclass from the source. -/
structure RiskFactor where
  name : String
  distribution : String
  min_value : Option ℚ := none
  most_likely : Option ℚ := none
  max_value : Option ℚ := none
  mean : Option ℚ := none
  std_dev : Option ℚ := none
  deriving DecidableEq, Repr

/-- The abstract numerical routines used by the engine.  Each field models
one scipy/numpy primitive that computes with transcendental functions and
is therefore not exactly representable over `ℚ`:

* `lhsSample seed n d` — `qmc.LatinHypercube(d=d, seed=seed).random(n)`,
  an `n × d` matrix (deterministic function of the seed);
* `triangPpf c loc scale u` — `scipy.stats.triang.ppf(u, c, loc, scale)`;
* `normPpf mean std u` — `scipy.stats.norm.ppf(u, loc=mean, scale=std)`;
* `uniformPpf loc scale u` — `scipy.stats.uniform.ppf(u, loc, scale)`;
* `lognormPpf mean std u` — the composite
  `lognorm.ppf(u, s=sigma, scale=exp(mu))` with `mu`, `sigma` derived from
  `mean`, `std` as in the source;
* `betaPpf a b u` — `scipy.stats.beta.ppf(u, a, b)`;
* `stdNormPpf u` — `scipy.stats.norm.ppf(u)` (standard normal);
* `cholesky m` — `np.linalg.cholesky(m)`, `none` when the matrix is not
  positive definite (`LinAlgError`);
* `sqrtApprox v` — the float square root used inside `np.std` and
  `np.corrcoef`. -/
structure Oracle where
  lhsSample : ℤ → ℕ → ℕ → List (List ℚ)
  triangPpf : ℚ → ℚ → ℚ → ℚ → ℚ
  normPpf : ℚ → ℚ → ℚ → ℚ
  uniformPpf : ℚ → ℚ → ℚ → ℚ
  lognormPpf : ℚ → ℚ → ℚ → ℚ
  betaPpf : ℚ → ℚ → ℚ → ℚ
  stdNormPpf : ℚ → ℚ
  cholesky : List (List ℚ) → Option (List (List ℚ))
  sqrtApprox : ℚ → ℚ

/-- Errors raised by `run_analysis`: `ValueError` from the transform /
Iman-Conover steps, `BusinessRuleViolation(message, code)` from correlation
matrix validation. -/
inductive RunError where
  | valueError (msg : String)
  | businessRule (msg : String) (code : String)
  deriving DecidableEq, Repr

/-- The result dictionary returned by `run_analysis`. -/
structure SimResult where
  base_cost : ℚ
  mean_cost : ℚ
  std_dev : ℚ
  percentiles : List (String × ℚ)
  min_cost : ℚ
  max_cost : ℚ
  iterations : ℕ
  risk_factors_applied : List String
  sensitivities : List (String × ℚ)
  deriving DecidableEq, Repr

deriving instance DecidableEq for Except

/-! ### List / matrix primitives mirroring the numpy operations -/

/-- Column `j` of a row-major matrix (`samples[:, j]`). -/
def getColumn (j : ℕ) (m : List (List ℚ)) : List ℚ :=
  m.map (fun row => row.getD j 0)

/-- Rebuild an `n`-row row-major matrix from a list of columns
(models writing a numpy array column by column). -/
def buildRows (n : ℕ) (cols : List (List ℚ)) : List (List ℚ) :=
  (List.range n).map (fun i => cols.map (fun c => c.getD i 0))

/-- Matrix entry `m[i][j]`. -/
def mget (m : List (List ℚ)) (i j : ℕ) : ℚ := (m.getD i []).getD j 0

/-- Dot product (`np.dot` on equal-length vectors). -/
def dot (a b : List ℚ) : ℚ := ((a.zip b).map (fun p => p.1 * p.2)).sum

/-- Ascending sort (`np.sort`). -/
def sortQ (l : List ℚ) : List ℚ := List.insertionSort (· ≤ ·) l

/-- `np.mean`. -/
def npMean (a : List ℚ) : ℚ := a.sum / (a.length : ℚ)

/-- Population variance, the square of `np.std` (default `ddof=0`). -/
def popVariance (a : List ℚ) : ℚ := npMean (a.map (fun x => (x - npMean a) ^ 2))

/-- `np.min`. -/
def npMin (a : List ℚ) : ℚ :=
  match a with
  | [] => 0
  | x :: xs => xs.foldl min x

/-- `np.max`. -/
def npMax (a : List ℚ) : ℚ :=
  match a with
  | [] => 0
  | x :: xs => xs.foldl max x

/-- `np.percentile(a, q)` with the default linear interpolation between
order statistics: virtual index `h = (n-1)·q/100`, result
`s[⌊h⌋] + (h-⌊h⌋)·(s[⌊h⌋+1] - s[⌊h⌋])` on the sorted data `s`. -/
def npPercentile (a : List ℚ) (q : ℚ) : ℚ :=
  let s := sortQ a
  let n := a.length
  let h : ℚ := (n - 1 : ℚ) * q / 100
  let k : ℕ := (⌊h⌋).toNat
  let lo := s.getD k 0
  let hi := s.getD (k + 1) lo
  lo + (h - ⌊h⌋) * (hi - lo)

/-- `scipy.stats.rankdata` with the default average method: the rank of a
value is the average of its 1-based positions in sorted order. -/
def rankdataAvg (a : List ℚ) : List ℚ :=
  a.map (fun x =>
    ((a.countP (fun y => y < x) : ℚ)) + (((a.countP (fun y => y = x) : ℚ)) + 1) / 2)

/-- `np.argsort(keys)`: the list of indices `0..n-1` ordered by their key
(ties broken by index, a valid argsort). -/
def argsortIdx (keys : List ℚ) : List ℕ :=
  List.insertionSort
    (fun i j => keys.getD i 0 < keys.getD j 0 ∨ (keys.getD i 0 = keys.getD j 0 ∧ i ≤ j))
    (List.range keys.length)

/-- `result[order, j] = sorted_original` from `_apply_iman_conover` step 4:
the output at row `order[i]` is `vals[i]`, i.e. the output at row `r` is
`vals[order.indexOf r]`. -/
def scatterColumn (order : List ℕ) (vals : List ℚ) : List ℚ :=
  (List.range vals.length).map (fun j => vals.getD (order.indexOf j) 0)

/-- The dictionary key `"p" + str(int(level*100))` (Python `int` truncates
toward zero). -/
def pKey (level : ℚ) : String :=
  let v := level * 100
  "p" ++ toString (if 0 ≤ v then ⌊v⌋ else -⌊-v⌋)

/-! ### `MonteCarloRiskAnalyzer._transform_samples` -/

/-- `_transform_samples(u, factor)`: dispatch on the lowercased
distribution name, check required parameters, and map the column through
the matching inverse CDF.  Mirrors the source including the (unreachable)
degenerate PERT branch that would return the mode. -/
def transformSamples (o : Oracle) (u : List ℚ) (factor : RiskFactor) :
    Except String (List ℚ) :=
  let dist := strLower factor.distribution
  if dist = "triangular" then
    match factor.min_value, factor.most_likely, factor.max_value with
    | some mn, some ml, some mx =>
      let loc := mn
      let scale := mx - mn
      let c := if scale > 0 then (ml - loc) / scale else 1 / 2
      Except.ok (u.map (o.triangPpf c loc scale))
    | _, _, _ =>
      Except.error ("Triangular distribution requires min, likely, max: " ++ factor.name)
  else if dist = "normal" then
    match factor.mean, factor.std_dev with
    | some m, some s => Except.ok (u.map (o.normPpf m s))
    | _, _ => Except.error ("Normal distribution requires mean, std_dev: " ++ factor.name)
  else if dist = "uniform" then
    match factor.min_value, factor.max_value with
    | some mn, some mx => Except.ok (u.map (o.uniformPpf mn (mx - mn)))
    | _, _ => Except.error ("Uniform distribution requires min, max: " ++ factor.name)
  else if dist = "lognormal" then
    match factor.mean, factor.std_dev with
    | some m, some s =>
      -- The sigma derivation computes `std**2 / mean**2` in pure-Python
      -- float arithmetic, which raises `ZeroDivisionError("float division
      -- by zero")` when `mean = 0` and aborts the run; the preceding `mu`
      -- line divides by a numpy scalar and never raises.  For `mean ≠ 0`
      -- the derived `mu`, `sigma` are folded into the abstract
      -- `lognormPpf mean std`.
      if m = 0 then Except.error "float division by zero"
      else Except.ok (u.map (o.lognormPpf m s))
    | _, _ => Except.error ("Lognormal distribution requires mean, std_dev: " ++ factor.name)
  else if dist = "pert" then
    match factor.min_value, factor.most_likely, factor.max_value with
    | some mn, some ml, some mx =>
      if mx ≤ mn then
        Except.error ("PERT distribution requires max > min: " ++ factor.name)
      else if ¬(mn ≤ ml ∧ ml ≤ mx) then
        Except.error ("PERT mode must be between min and max: " ++ factor.name)
      else
        let rangeVal := mx - mn
        if rangeVal > 0 then
          let alpha := 1 + 4 * (ml - mn) / rangeVal
          let betaParam := 1 + 4 * (mx - ml) / rangeVal
          Except.ok (u.map (fun uu => mn + o.betaPpf alpha betaParam uu * rangeVal))
        else
          Except.ok (u.map (fun _ => ml))
    | _, _, _ =>
      Except.error ("PERT distribution requires min, likely, max: " ++ factor.name)
  else
    Except.error ("Unsupported distribution type: " ++ dist)

/-- The per-factor transform loop of `run_analysis`: column `j` of the LHS
matrix is transformed with factor `j`; the first `ValueError` aborts the
whole run. -/
def transformCols (o : Oracle) (lhs : List (List ℚ)) :
    ℕ → List (String × RiskFactor) → Except String (List (List ℚ))
  | _, [] => Except.ok []
  | j, (_, f) :: rest =>
    match transformSamples o (getColumn j lhs) f with
    | Except.error m => Except.error m
    | Except.ok col =>
      match transformCols o lhs (j + 1) rest with
      | Except.error m => Except.error m
      | Except.ok cols => Except.ok (col :: cols)

/-! ### `MonteCarloRiskAnalyzer._validate_correlation_matrix` -/

/-- Scalar `np.allclose` test with the default tolerances
`rtol = 1e-5`, `atol = 1e-8`: `|a - b| ≤ atol + rtol·|b|`. -/
def allcloseQ (a b : ℚ) : Bool :=
  |a - b| ≤ 1 / 100000000 + (1 / 100000) * |b|

/-- `correlation_matrix.shape == (n, n)` (a numpy 2-D array is
rectangular, so the shape test is: `n` rows, every row of length `n`). -/
def shapeOkB (m : List (List ℚ)) (n : ℕ) : Bool :=
  m.length = n && m.all (fun r => r.length = n)

/-- `np.allclose(correlation_matrix, correlation_matrix.T)`. -/
def symOkB (m : List (List ℚ)) (n : ℕ) : Bool :=
  (List.range n).all (fun i => (List.range n).all (fun j => allcloseQ (mget m i j) (mget m j i)))

/-- `np.allclose(np.diagonal(correlation_matrix), 1.0)`. -/
def diagOkB (m : List (List ℚ)) (n : ℕ) : Bool :=
  (List.range n).all (fun i => allcloseQ (mget m i i) 1)

/-- `np.all((correlation_matrix >= -1.0) & (correlation_matrix <= 1.0))`. -/
def rangeOkB (m : List (List ℚ)) (n : ℕ) : Bool :=
  (List.range n).all (fun i =>
    (List.range n).all (fun j => decide (-1 ≤ mget m i j) && decide (mget m i j ≤ 1)))

/-- `_validate_correlation_matrix`: the four checks in source order, each
with its distinct `BusinessRuleViolation` code.  The final eigenvalue test
in the source only logs a warning and never raises, so it has no
behavioural effect and is not modelled. -/
def validateCorrelationMatrix (m : List (List ℚ)) (nVars : ℕ) : Except RunError Unit :=
  if ¬shapeOkB m nVars then
    Except.error (RunError.businessRule
      ("Correlation matrix shape does not match " ++ toString nVars ++ " risk factors")
      "INVALID_CORRELATION_MATRIX_SHAPE")
  else if ¬symOkB m nVars then
    Except.error (RunError.businessRule "Correlation matrix must be symmetric"
      "CORRELATION_MATRIX_NOT_SYMMETRIC")
  else if ¬diagOkB m nVars then
    Except.error (RunError.businessRule "Correlation matrix diagonal must be all 1.0"
      "CORRELATION_MATRIX_INVALID_DIAGONAL")
  else if ¬rangeOkB m nVars then
    Except.error (RunError.businessRule "Correlation matrix values must be in range [-1, 1]"
      "CORRELATION_MATRIX_OUT_OF_RANGE")
  else
    Except.ok ()

/-! ### `MonteCarloRiskAnalyzer._apply_iman_conover` -/

/-- Steps 1-2 and the Cholesky application of `_apply_iman_conover`:
rank-transform each column, convert the ranks to normal quantiles
`norm.ppf((ranked - 0.5)/n)`, and multiply by the transpose of the
Cholesky factor `L` (`normals @ L.T`). -/
def imanCorrelated (o : Oracle) (samples L : List (List ℚ)) : List (List ℚ) :=
  let nSamples := samples.length
  let nVars := (samples.headD []).length
  let rankedCols := (List.range nVars).map (fun j => rankdataAvg (getColumn j samples))
  let normalsCols := rankedCols.map (fun col =>
    col.map (fun r => o.stdNormPpf ((r - 1 / 2) / (nSamples : ℚ))))
  let normalsRows := buildRows nSamples normalsCols
  normalsRows.map (fun row => L.map (fun lrow => dot row lrow))

/-- Steps 3-4 of `_apply_iman_conover`, per column `j`: rank the correlated
scores, argsort those ranks, and scatter the sorted original column to the
positions given by the argsort. -/
def imanResultCols (o : Oracle) (samples L : List (List ℚ)) : List (List ℚ) :=
  (List.range ((samples.headD []).length)).map (fun j =>
    scatterColumn (argsortIdx (rankdataAvg (getColumn j (imanCorrelated o samples L))))
      (sortQ (getColumn j samples)))

/-- `_apply_iman_conover(samples, correlation_matrix)`.  When the Cholesky
factorisation fails (matrix not positive definite) the original samples
are returned unchanged.  Otherwise the result is the per-column
reordering `imanResultCols`, assembled back into rows. -/
def applyImanConover (o : Oracle) (samples : List (List ℚ)) (m : List (List ℚ)) :
    Except String (List (List ℚ)) :=
  let nVars := (samples.headD []).length
  if ¬shapeOkB m nVars then
    Except.error ("Correlation matrix shape does not match variables " ++ toString nVars)
  else
    match o.cholesky m with
    | none => Except.ok samples
    | some L => Except.ok (buildRows samples.length (imanResultCols o samples L))

/-! ### `MonteCarloRiskAnalyzer._compute_spearman_sensitivity` -/

/-- Deviations from the mean, `x - x.mean()`. -/
def devs (x : List ℚ) : List ℚ := x.map (fun v => v - npMean x)

/-- Pearson correlation coefficient as computed by `np.corrcoef` (the
normalisations by `n-1` cancel): `Sxy / (√Sxx · √Syy)`, with the float
square root abstracted. -/
def pearsonWith (sq : ℚ → ℚ) (x y : List ℚ) : ℚ :=
  dot (devs x) (devs y) / (sq (dot (devs x) (devs x)) * sq (dot (devs y) (devs y)))

/-- Exact real-number semantics of the Pearson coefficient of `x` and `y`
(`np.corrcoef(x, y)[0, 1]` with a true square root). -/
noncomputable def pearsonReal (x y : List ℚ) : ℝ :=
  ((dot (devs x) (devs y) : ℚ) : ℝ) /
    (Real.sqrt ((dot (devs x) (devs x) : ℚ) : ℝ) *
      Real.sqrt ((dot (devs y) (devs y) : ℚ) : ℝ))

/-- Exact real-number semantics of the Spearman coefficient: the Pearson
coefficient of the ranks. -/
noncomputable def spearmanReal (x y : List ℚ) : ℝ :=
  pearsonReal (rankdataAvg x) (rankdataAvg y)

/-- `_compute_spearman_sensitivity`: for each factor, the Pearson
correlation of the ranks of its sample column with the ranks of the total
cost vector, rounded to 4 decimal places. -/
def computeSpearmanSensitivity (o : Oracle) (factorSamples : List (List ℚ))
    (totalCosts : List ℚ) (names : List String) : List (String × ℚ) :=
  names.enum.map (fun p =>
    (p.2, round4 (pearsonWith o.sqrtApprox
      (rankdataAvg (getColumn p.1 factorSamples)) (rankdataAvg totalCosts))))

/-! ### `MonteCarloRiskAnalyzer.run_analysis` -/

/-- `risk_adjusted_costs = base_cost * (1.0 + transformed.sum(axis=1))`. -/
def riskAdjustedCosts (base : ℚ) (m : List (List ℚ)) : List ℚ :=
  m.map (fun row => base * (1 + row.sum))

/-- The sampling / transform / correlation stage of `run_analysis`,
producing the final sample matrix the aggregator consumes. -/
def pipelineMatrix (o : Oracle) (iterations : ℕ) (seed : ℤ)
    (riskFactors : List (String × RiskFactor)) (corrM : Option (List (List ℚ))) :
    Except RunError (List (List ℚ)) :=
  let nVars := riskFactors.length
  let lhs := o.lhsSample seed iterations nVars
  match transformCols o lhs 0 riskFactors with
  | Except.error m => Except.error (RunError.valueError m)
  | Except.ok cols =>
    let transformed := buildRows lhs.length cols
    match corrM with
    | none => Except.ok transformed
    | some m =>
      match validateCorrelationMatrix m nVars with
      | Except.error e => Except.error e
      | Except.ok _ =>
        match applyImanConover o transformed m with
        | Except.error msg => Except.error (RunError.valueError msg)
        | Except.ok corr => Except.ok corr

/-- `run_analysis(base_cost, risk_factors, correlation_matrix,
confidence_levels)` on an analyzer configured with `iterations` and
`random_seed = seed`.  The zero-factor early return comes before any
sampling or correlation handling, exactly as in the source. -/
def runAnalysis (o : Oracle) (iterations : ℕ) (seed : ℤ) (baseCost : ℚ)
    (riskFactors : List (String × RiskFactor)) (corrM : Option (List (List ℚ)))
    (levels : List ℚ) : Except RunError SimResult :=
  let factorNames := riskFactors.map Prod.fst
  if riskFactors.length = 0 then
    Except.ok
      { base_cost := baseCost
        mean_cost := baseCost
        std_dev := 0
        percentiles := levels.map (fun l => (pKey l, baseCost))
        min_cost := baseCost
        max_cost := baseCost
        iterations := iterations
        risk_factors_applied := []
        sensitivities := [] }
  else
    match pipelineMatrix o iterations seed riskFactors corrM with
    | Except.error e => Except.error e
    | Except.ok M =>
      let costs := riskAdjustedCosts baseCost M
      Except.ok
        { base_cost := baseCost
          mean_cost := round2 (npMean costs)
          std_dev := round2 (o.sqrtApprox (popVariance costs))
          percentiles := levels.map (fun l => (pKey l, round2 (npPercentile costs (l * 100))))
          min_cost := round2 (npMin costs)
          max_cost := round2 (npMax costs)
          iterations := iterations
          risk_factors_applied := factorNames
          sensitivities := computeSpearmanSensitivity o M costs factorNames }

/-! ### Predicates used to state the claims -/

/-- The distribution names accepted by `_transform_samples`. -/
def supportedDists : List String := ["triangular", "normal", "uniform", "lognormal", "pert"]

/-- The exact conditions under which `_transform_samples` raises an
invalid-parameter `ValueError` for a supported distribution: a missing
required parameter (any distribution), or, for PERT only, `max ≤ min` or
the mode outside `[min, max]`. -/
def invalidFactorParams (f : RiskFactor) : Bool :=
  if strLower f.distribution = "triangular" then
    f.min_value.isNone || f.most_likely.isNone || f.max_value.isNone
  else if strLower f.distribution = "normal" then
    f.mean.isNone || f.std_dev.isNone
  else if strLower f.distribution = "uniform" then
    f.min_value.isNone || f.max_value.isNone
  else if strLower f.distribution = "lognormal" then
    f.mean.isNone || f.std_dev.isNone
  else if strLower f.distribution = "pert" then
    match f.min_value, f.most_likely, f.max_value with
    | some mn, some ml, some mx => decide (mx ≤ mn) || decide (¬(mn ≤ ml ∧ ml ≤ mx))
    | _, _, _ => true
  else
    false

/-- A lognormal factor with `mean = 0`, on which the sigma derivation in
`_transform_samples` raises `ZeroDivisionError` (`std**2 / mean**2` in
pure-Python float arithmetic). -/
def lognormZeroMean (f : RiskFactor) : Bool :=
  if strLower f.distribution = "lognormal" then
    match f.mean, f.std_dev with
    | some m, some _ => decide (m = 0)
    | _, _ => false
  else
    false

/-- A factor on which `_transform_samples` raises (for any reason). -/
def badFactor (f : RiskFactor) : Bool :=
  invalidFactorParams f || lognormZeroMean f ||
    !(supportedDists.contains (strLower f.distribution))

/-- The linear interpolation at virtual index `h` on a (sorted) list:
`npPercentile a q = interpAt (sortQ a) ((n-1)·q/100)`. -/
def interpAt (s : List ℚ) (h : ℚ) : ℚ :=
  let k : ℕ := (⌊h⌋).toNat
  let lo := s.getD k 0
  let hi := s.getD (k + 1) lo
  lo + (h - ⌊h⌋) * (hi - lo)

/-- A fixed concrete oracle used to instantiate counterexamples and
witnesses.  The error behaviour of the engine never depends on the values
the numerical routines return, so any instantiation exhibits it. -/
def oracle0 : Oracle where
  lhsSample := fun _ n d => (List.range n).map (fun i => (List.range d).map (fun _ => (i : ℚ) / (n : ℚ)))
  triangPpf := fun _ _ _ u => u
  normPpf := fun m _ _ => m
  uniformPpf := fun loc scale u => loc + scale * u
  lognormPpf := fun m _ _ => m
  betaPpf := fun _ _ u => u
  stdNormPpf := fun u => u
  cholesky := fun _ => none
  sqrtApprox := fun _ => 0

/-- A second concrete oracle whose Cholesky step always succeeds, used to
instantiate theorems about the correlated branch. -/
def oracleC : Oracle := { oracle0 with cholesky := fun m => some m }


/-! ### Rounding lemmas -/

theorem floor_le_rheF {α : Type} [LinearOrderedField α] [FloorRing α] (x : α) :
    ⌊x⌋ ≤ rheF x := by
  unfold rheF
  split
  · split <;> omega
  · rw [round_eq]
    exact Int.floor_mono (by linarith)

theorem rheF_le_floor_add_one {α : Type} [LinearOrderedField α] [FloorRing α] (x : α) :
    rheF x ≤ ⌊x⌋ + 1 := by
  unfold rheF
  split
  · split <;> omega
  · rw [round_eq]
    have hx : x < (⌊x⌋ : α) + 1 := Int.lt_floor_add_one x
    have h2 : ⌊x + 1 / 2⌋ < ⌊x⌋ + 2 := Int.floor_lt.mpr (by push_cast; linarith)
    omega

theorem rheF_mono {α : Type} [LinearOrderedField α] [FloorRing α] {x y : α} (h : x ≤ y) :
    rheF x ≤ rheF y := by
  rcases lt_or_eq_of_le (Int.floor_mono h) with hf | hf
  · calc rheF x ≤ ⌊x⌋ + 1 := rheF_le_floor_add_one x
      _ ≤ ⌊y⌋ := by omega
      _ ≤ rheF y := floor_le_rheF y
  · have hfr : Int.fract x ≤ Int.fract y := by
      unfold Int.fract
      rw [hf]
      linarith
    unfold rheF
    by_cases t1 : Int.fract x = 1 / 2 <;> by_cases t2 : Int.fract y = 1 / 2 <;>
      simp only [t1, t2, if_pos, if_neg, if_true, if_false, hf]
    · split <;> omega
    · have hgt : (1 : α) / 2 < Int.fract y := lt_of_le_of_ne (t1 ▸ hfr) (Ne.symm t2)
      have hfy : Int.fract y = y - ⌊y⌋ := rfl
      have hlt : y < (⌊y⌋ : α) + 1 := Int.lt_floor_add_one y
      have hround : ⌊y + 1 / 2⌋ = ⌊y⌋ + 1 := by
        rw [Int.floor_eq_iff]
        constructor
        · push_cast
          linarith [hgt, hfy ▸ hgt]
        · push_cast
          linarith
      rw [round_eq, hround]
      split <;> omega
    · have hlt : Int.fract x < 1 / 2 := lt_of_le_of_ne (t2 ▸ hfr) t1
      have hfx : Int.fract x = x - ⌊x⌋ := rfl
      have hge : (⌊x⌋ : α) ≤ x := Int.floor_le x
      have hround : ⌊x + 1 / 2⌋ = ⌊x⌋ := by
        rw [Int.floor_eq_iff]
        constructor
        · push_cast
          linarith
        · push_cast
          linarith [hfx ▸ hlt]
      rw [round_eq, hround]
      split <;> omega
    · rw [round_eq, round_eq]
      exact Int.floor_mono (by linarith)

theorem rheF_intCast {α : Type} [LinearOrderedField α] [FloorRing α] (n : ℤ) :
    rheF ((n : α)) = n := by
  unfold rheF
  rw [Int.fract_intCast]
  have h2 : ((0 : α)) ≠ 1 / 2 := by norm_num
  rw [if_neg h2, round_intCast]

theorem round2_mono {x y : ℚ} (h : x ≤ y) : round2 x ≤ round2 y := by
  unfold round2
  have := rheF_mono (α := ℚ) (x := x * 100) (y := y * 100) (by linarith)
  have hc : ((rheF (x * 100) : ℚ)) ≤ ((rheF (y * 100) : ℚ)) := by exact_mod_cast this
  linarith

/-! ### Sorted-list, min/max and percentile lemmas -/

theorem sorted_getD_mono {s : List ℚ} (hs : s.Sorted (· ≤ ·)) {i j : ℕ}
    (hij : i ≤ j) (hj : j < s.length) : s.getD i 0 ≤ s.getD j 0 := by
  have hi : i < s.length := lt_of_le_of_lt hij hj
  rw [List.getD_eq_getElem s 0 hi, List.getD_eq_getElem s 0 hj]
  have := List.Sorted.rel_get_of_le hs (a := ⟨i, hi⟩) (b := ⟨j, hj⟩) hij
  simpa using this

theorem sortQ_sorted (a : List ℚ) : (sortQ a).Sorted (· ≤ ·) :=
  List.sorted_insertionSort _ a

theorem sortQ_perm (a : List ℚ) : (sortQ a).Perm a :=
  List.perm_insertionSort _ a

theorem sortQ_length (a : List ℚ) : (sortQ a).length = a.length :=
  (sortQ_perm a).length_eq

theorem foldl_min_le_acc : ∀ (l : List ℚ) (acc : ℚ), l.foldl min acc ≤ acc := by
  intro l
  induction l with
  | nil => intro acc; simp
  | cons x xs ih =>
    intro acc
    calc (x :: xs).foldl min acc = xs.foldl min (min acc x) := rfl
      _ ≤ min acc x := ih (min acc x)
      _ ≤ acc := min_le_left _ _

theorem foldl_min_le_of_mem : ∀ (l : List ℚ) (acc x : ℚ), x ∈ l → l.foldl min acc ≤ x := by
  intro l
  induction l with
  | nil => intro acc x hx; cases hx
  | cons b bs ih =>
    intro acc x hx
    rcases List.mem_cons.mp hx with h | h
    · rw [h]
      calc (b :: bs).foldl min acc = bs.foldl min (min acc b) := rfl
        _ ≤ min acc b := foldl_min_le_acc bs _
        _ ≤ b := min_le_right _ _
    · exact ih (min acc b) x h

theorem foldl_min_mem_or : ∀ (l : List ℚ) (acc : ℚ), l.foldl min acc = acc ∨ l.foldl min acc ∈ l := by
  intro l
  induction l with
  | nil => intro acc; left; rfl
  | cons b bs ih =>
    intro acc
    rcases ih (min acc b) with h | h
    · rcases min_choice acc b with hm | hm
      · left
        show bs.foldl min (min acc b) = acc
        rw [h, hm]
      · right
        show bs.foldl min (min acc b) ∈ b :: bs
        rw [h, hm]
        exact List.mem_cons_self _ _
    · right
      exact List.mem_cons_of_mem _ h

theorem foldl_max_acc_le : ∀ (l : List ℚ) (acc : ℚ), acc ≤ l.foldl max acc := by
  intro l
  induction l with
  | nil => intro acc; simp
  | cons x xs ih =>
    intro acc
    calc acc ≤ max acc x := le_max_left _ _
      _ ≤ xs.foldl max (max acc x) := ih (max acc x)
      _ = (x :: xs).foldl max acc := rfl

theorem foldl_max_ge_of_mem : ∀ (l : List ℚ) (acc x : ℚ), x ∈ l → x ≤ l.foldl max acc := by
  intro l
  induction l with
  | nil => intro acc x hx; cases hx
  | cons b bs ih =>
    intro acc x hx
    rcases List.mem_cons.mp hx with h | h
    · subst h
      calc x ≤ max acc x := le_max_right _ _
        _ ≤ bs.foldl max (max acc x) := foldl_max_acc_le bs _
        _ = (x :: bs).foldl max acc := rfl
    · exact ih (max acc b) x h

theorem foldl_max_mem_or : ∀ (l : List ℚ) (acc : ℚ), l.foldl max acc = acc ∨ l.foldl max acc ∈ l := by
  intro l
  induction l with
  | nil => intro acc; left; rfl
  | cons b bs ih =>
    intro acc
    rcases ih (max acc b) with h | h
    · rcases max_choice acc b with hm | hm
      · left
        show bs.foldl max (max acc b) = acc
        rw [h, hm]
      · right
        show bs.foldl max (max acc b) ∈ b :: bs
        rw [h, hm]
        exact List.mem_cons_self _ _
    · right
      exact List.mem_cons_of_mem _ h

theorem npMin_le_of_mem {a : List ℚ} {x : ℚ} (hx : x ∈ a) : npMin a ≤ x := by
  cases a with
  | nil => cases hx
  | cons b bs =>
    rcases List.mem_cons.mp hx with h | h
    · subst h
      exact foldl_min_le_acc bs x
    · exact foldl_min_le_of_mem bs b x h

theorem npMin_mem {a : List ℚ} (h : a ≠ []) : npMin a ∈ a := by
  cases a with
  | nil => exact absurd rfl h
  | cons b bs =>
    rcases foldl_min_mem_or bs b with h2 | h2
    · show bs.foldl min b ∈ b :: bs
      rw [h2]
      exact List.mem_cons_self _ _
    · exact List.mem_cons_of_mem _ h2

theorem le_npMax_of_mem {a : List ℚ} {x : ℚ} (hx : x ∈ a) : x ≤ npMax a := by
  cases a with
  | nil => cases hx
  | cons b bs =>
    rcases List.mem_cons.mp hx with h | h
    · subst h
      exact foldl_max_acc_le bs x
    · exact foldl_max_ge_of_mem bs b x h

theorem npMax_mem {a : List ℚ} (h : a ≠ []) : npMax a ∈ a := by
  cases a with
  | nil => exact absurd rfl h
  | cons b bs =>
    rcases foldl_max_mem_or bs b with h2 | h2
    · show bs.foldl max b ∈ b :: bs
      rw [h2]
      exact List.mem_cons_self _ _
    · exact List.mem_cons_of_mem _ h2

theorem npMin_eq_sortQ_head {a : List ℚ} (h : a ≠ []) : npMin a = (sortQ a).getD 0 0 := by
  have hlen : 0 < (sortQ a).length := by
    rw [sortQ_length]
    exact List.length_pos.mpr h
  have hmem0 : (sortQ a).getD 0 0 ∈ sortQ a := by
    rw [List.getD_eq_getElem _ 0 hlen]
    exact List.getElem_mem _
  have h1 : npMin a ≤ (sortQ a).getD 0 0 :=
    npMin_le_of_mem ((sortQ_perm a).mem_iff.mp hmem0)
  have hmin_mem : npMin a ∈ sortQ a := (sortQ_perm a).mem_iff.mpr (npMin_mem h)
  rcases List.mem_iff_get.mp hmin_mem with ⟨i, hi⟩
  have h2 : (sortQ a).getD 0 0 ≤ npMin a := by
    have := sorted_getD_mono (sortQ_sorted a) (Nat.zero_le i.1) i.2
    rwa [List.getD_eq_getElem _ 0 i.2, ← List.get_eq_getElem, hi] at this
  exact le_antisymm h1 h2

theorem npMax_eq_sortQ_last {a : List ℚ} (h : a ≠ []) :
    npMax a = (sortQ a).getD (a.length - 1) 0 := by
  have hlen : 0 < (sortQ a).length := by
    rw [sortQ_length]
    exact List.length_pos.mpr h
  have hidx : a.length - 1 < (sortQ a).length := by
    have h0 : 0 < a.length := List.length_pos.mpr h
    rw [sortQ_length]
    omega
  have hmemL : (sortQ a).getD (a.length - 1) 0 ∈ sortQ a := by
    rw [List.getD_eq_getElem _ 0 hidx]
    exact List.getElem_mem _
  have h1 : (sortQ a).getD (a.length - 1) 0 ≤ npMax a :=
    le_npMax_of_mem ((sortQ_perm a).mem_iff.mp hmemL)
  have hmax_mem : npMax a ∈ sortQ a := (sortQ_perm a).mem_iff.mpr (npMax_mem h)
  rcases List.mem_iff_get.mp hmax_mem with ⟨i, hi⟩
  have h2 : npMax a ≤ (sortQ a).getD (a.length - 1) 0 := by
    have hile : i.1 ≤ a.length - 1 := by
      have h2 := i.2
      have he := sortQ_length a
      omega
    have := sorted_getD_mono (sortQ_sorted a) hile hidx
    rwa [List.getD_eq_getElem _ 0 i.2, ← List.get_eq_getElem, hi] at this
  exact le_antisymm h2 h1

theorem npPercentile_eq_interpAt (a : List ℚ) (q : ℚ) :
    npPercentile a q = interpAt (sortQ a) (((a.length : ℚ) - 1) * q / 100) := rfl

theorem interpAt_nil (h : ℚ) : interpAt [] h = 0 := by
  simp [interpAt]

theorem interpAt_def (s : List ℚ) (h : ℚ) :
    interpAt s h =
      s.getD (⌊h⌋).toNat 0 +
        (h - ⌊h⌋) *
          (s.getD ((⌊h⌋).toNat + 1) (s.getD (⌊h⌋).toNat 0) - s.getD (⌊h⌋).toNat 0) := rfl

theorem interpAt_bounds {s : List ℚ} (hs : s.Sorted (· ≤ ·)) (hn : 0 < s.length)
    {h : ℚ} (h0 : 0 ≤ h) (h1 : h ≤ (s.length : ℚ) - 1) :
    s.getD 0 0 ≤ interpAt s h ∧ interpAt s h ≤ s.getD (s.length - 1) 0 := by
  have hfl0 : (0 : ℤ) ≤ ⌊h⌋ := Int.le_floor.mpr (by exact_mod_cast h0)
  have hcast : ((s.length : ℚ)) - 1 = (((s.length : ℤ) - 1 : ℤ) : ℚ) := by push_cast; ring
  have hfl1 : ⌊h⌋ ≤ (s.length : ℤ) - 1 := by
    have h2 := Int.floor_mono h1
    rwa [hcast, Int.floor_intCast] at h2
  set k := (⌊h⌋).toNat with hk
  have hklt : k < s.length := by omega
  have hg0 : 0 ≤ h - (⌊h⌋ : ℚ) := sub_nonneg.mpr (Int.floor_le h)
  have hg1 : h - (⌊h⌋ : ℚ) ≤ 1 := by linarith [Int.lt_floor_add_one h]
  have hlo0 : s.getD 0 0 ≤ s.getD k 0 := sorted_getD_mono hs (Nat.zero_le k) hklt
  have hloL : s.getD k 0 ≤ s.getD (s.length - 1) 0 := sorted_getD_mono hs (by omega) (by omega)
  rw [interpAt_def, ← hk]
  by_cases hk1 : k + 1 < s.length
  · have hhi : s.getD (k + 1) (s.getD k 0) = s.getD (k + 1) 0 := by
      rw [List.getD_eq_getElem s _ hk1, List.getD_eq_getElem s 0 hk1]
    have hlohi : s.getD k 0 ≤ s.getD (k + 1) 0 := sorted_getD_mono hs (Nat.le_succ k) hk1
    have hhiL : s.getD (k + 1) 0 ≤ s.getD (s.length - 1) 0 :=
      sorted_getD_mono hs (by omega) (by omega)
    rw [hhi]
    constructor
    · nlinarith [mul_nonneg hg0 (sub_nonneg.mpr hlohi)]
    · nlinarith [mul_nonneg (sub_nonneg.mpr hg1) (sub_nonneg.mpr hlohi)]
  · have hhi : s.getD (k + 1) (s.getD k 0) = s.getD k 0 :=
      List.getD_eq_default s _ (by omega)
    rw [hhi, sub_self, mul_zero, add_zero]
    exact ⟨hlo0, hloL⟩

theorem interpAt_mono {s : List ℚ} (hs : s.Sorted (· ≤ ·)) (hn : 0 < s.length)
    {h1 h2 : ℚ} (h0 : 0 ≤ h1) (h12 : h1 ≤ h2) (hup : h2 ≤ (s.length : ℚ) - 1) :
    interpAt s h1 ≤ interpAt s h2 := by
  have hfl0 : (0 : ℤ) ≤ ⌊h1⌋ := Int.le_floor.mpr (by exact_mod_cast h0)
  have hcast : ((s.length : ℚ)) - 1 = (((s.length : ℤ) - 1 : ℤ) : ℚ) := by push_cast; ring
  have hfl2 : ⌊h2⌋ ≤ (s.length : ℤ) - 1 := by
    have hx := Int.floor_mono hup
    rwa [hcast, Int.floor_intCast] at hx
  have hflm : ⌊h1⌋ ≤ ⌊h2⌋ := Int.floor_mono h12
  set k1 := (⌊h1⌋).toNat with hk1d
  set k2 := (⌊h2⌋).toNat with hk2d
  have hk2lt : k2 < s.length := by omega
  have hg10 : 0 ≤ h1 - (⌊h1⌋ : ℚ) := sub_nonneg.mpr (Int.floor_le h1)
  have hg11 : h1 - (⌊h1⌋ : ℚ) ≤ 1 := by linarith [Int.lt_floor_add_one h1]
  have hg20 : 0 ≤ h2 - (⌊h2⌋ : ℚ) := sub_nonneg.mpr (Int.floor_le h2)
  have hg21 : h2 - (⌊h2⌋ : ℚ) ≤ 1 := by linarith [Int.lt_floor_add_one h2]
  rw [interpAt_def, interpAt_def, ← hk1d, ← hk2d]
  rcases eq_or_lt_of_le hflm with hfe | hflt
  · have hke : k1 = k2 := by omega
    have hfq : ((⌊h1⌋ : ℚ)) = (⌊h2⌋ : ℚ) := by exact_mod_cast hfe
    rw [hke, hfq]
    by_cases hin : k2 + 1 < s.length
    · have hhi : s.getD (k2 + 1) (s.getD k2 0) = s.getD (k2 + 1) 0 := by
        rw [List.getD_eq_getElem s _ hin, List.getD_eq_getElem s 0 hin]
      have hlohi : s.getD k2 0 ≤ s.getD (k2 + 1) 0 := sorted_getD_mono hs (Nat.le_succ k2) hin
      rw [hhi]
      nlinarith [mul_nonneg (by linarith : (0 : ℚ) ≤ h2 - h1) (sub_nonneg.mpr hlohi)]
    · have hhi : s.getD (k2 + 1) (s.getD k2 0) = s.getD k2 0 :=
        List.getD_eq_default s _ (by omega)
      rw [hhi, sub_self, mul_zero, mul_zero]
  · have hk12 : k1 + 1 ≤ k2 := by omega
    have hk1in : k1 + 1 < s.length := by omega
    have hhi1 : s.getD (k1 + 1) (s.getD k1 0) = s.getD (k1 + 1) 0 := by
      rw [List.getD_eq_getElem s _ hk1in, List.getD_eq_getElem s 0 hk1in]
    have hlohi1 : s.getD k1 0 ≤ s.getD (k1 + 1) 0 := sorted_getD_mono hs (Nat.le_succ k1) hk1in
    have hmid : s.getD (k1 + 1) 0 ≤ s.getD k2 0 := sorted_getD_mono hs hk12 hk2lt
    rw [hhi1]
    have hval1 : s.getD k1 0 + (h1 - (⌊h1⌋ : ℚ)) * (s.getD (k1 + 1) 0 - s.getD k1 0) ≤
        s.getD (k1 + 1) 0 := by
      nlinarith [mul_nonneg (sub_nonneg.mpr hg11) (sub_nonneg.mpr hlohi1)]
    by_cases hin2 : k2 + 1 < s.length
    · have hhi2 : s.getD (k2 + 1) (s.getD k2 0) = s.getD (k2 + 1) 0 := by
        rw [List.getD_eq_getElem s _ hin2, List.getD_eq_getElem s 0 hin2]
      have hlohi2 : s.getD k2 0 ≤ s.getD (k2 + 1) 0 := sorted_getD_mono hs (Nat.le_succ k2) hin2
      rw [hhi2]
      nlinarith [mul_nonneg hg20 (sub_nonneg.mpr hlohi2)]
    · have hhi2 : s.getD (k2 + 1) (s.getD k2 0) = s.getD k2 0 :=
        List.getD_eq_default s _ (by omega)
      rw [hhi2, sub_self, mul_zero, add_zero]
      linarith

theorem npPercentile_mono (a : List ℚ) {q1 q2 : ℚ} (hq0 : 0 ≤ q1) (hq12 : q1 ≤ q2)
    (hq100 : q2 ≤ 100) : npPercentile a q1 ≤ npPercentile a q2 := by
  rcases eq_or_ne a [] with ha | ha
  · subst ha
    rw [npPercentile_eq_interpAt, npPercentile_eq_interpAt]
    have hnil : sortQ ([] : List ℚ) = [] := rfl
    rw [hnil, interpAt_nil, interpAt_nil]
  · have hn : 0 < a.length := List.length_pos.mpr ha
    have hn1 : (0 : ℚ) ≤ (a.length : ℚ) - 1 := by
      have hc : (1 : ℚ) ≤ (a.length : ℚ) := by exact_mod_cast hn
      linarith
    rw [npPercentile_eq_interpAt, npPercentile_eq_interpAt]
    apply interpAt_mono (sortQ_sorted a) (by rw [sortQ_length]; exact hn)
    · exact div_nonneg (mul_nonneg hn1 hq0) (by norm_num)
    · have := mul_le_mul_of_nonneg_left hq12 hn1
      linarith
    · rw [sortQ_length]
      have := mul_le_mul_of_nonneg_left hq100 hn1
      linarith

theorem npPercentile_between (a : List ℚ) {q : ℚ} (hq0 : 0 ≤ q) (hq100 : q ≤ 100) :
    npMin a ≤ npPercentile a q ∧ npPercentile a q ≤ npMax a := by
  rcases eq_or_ne a [] with ha | ha
  · subst ha
    rw [npPercentile_eq_interpAt]
    have hnil : sortQ ([] : List ℚ) = [] := rfl
    rw [hnil, interpAt_nil]
    exact ⟨le_of_eq rfl, le_of_eq rfl⟩
  · have hn : 0 < a.length := List.length_pos.mpr ha
    have hn1 : (0 : ℚ) ≤ (a.length : ℚ) - 1 := by
      have hc : (1 : ℚ) ≤ (a.length : ℚ) := by exact_mod_cast hn
      linarith
    have hb := interpAt_bounds (sortQ_sorted a) (by rw [sortQ_length]; exact hn)
      (h := ((a.length : ℚ) - 1) * q / 100)
      (div_nonneg (mul_nonneg hn1 hq0) (by norm_num))
      (by
        rw [sortQ_length]
        have := mul_le_mul_of_nonneg_left hq100 hn1
        linarith)
    rw [npPercentile_eq_interpAt]
    constructor
    · rw [npMin_eq_sortQ_head ha]
      exact hb.1
    · rw [npMax_eq_sortQ_last ha]
      have hlen2 : (sortQ a).length - 1 = a.length - 1 := by rw [sortQ_length]
      rw [← hlen2]
      exact hb.2

/-! ### Cauchy-Schwarz for the dot product, and the Pearson bound -/

theorem dot_nil_left (y : List ℚ) : dot [] y = 0 := by simp [dot]

theorem dot_nil_right (x : List ℚ) : dot x [] = 0 := by
  cases x <;> simp [dot]

theorem dot_cons (a b : ℚ) (as bs : List ℚ) :
    dot (a :: as) (b :: bs) = a * b + dot as bs := by
  simp [dot]

theorem dot_self_nonneg : ∀ x : List ℚ, 0 ≤ dot x x := by
  intro x
  induction x with
  | nil => simp [dot]
  | cons a as ih =>
    rw [dot_cons]
    nlinarith [sq_nonneg a]

theorem dot_sq_le (x : List ℚ) : ∀ y : List ℚ, (dot x y) ^ 2 ≤ dot x x * dot y y := by
  induction x with
  | nil =>
    intro y
    simp [dot_nil_left]
  | cons a as ih =>
    intro y
    cases y with
    | nil => simp [dot_nil_right]
    | cons b bs =>
      have hAB := ih bs
      have hA := dot_self_nonneg as
      have hB := dot_self_nonneg bs
      rw [dot_cons, dot_cons, dot_cons]
      rcases eq_or_lt_of_le hB with hB0 | hBpos
      · have hS2 : dot as bs ^ 2 ≤ 0 := by
          rw [← hB0] at hAB
          linarith
        have hSz : dot as bs ^ 2 = 0 := le_antisymm hS2 (sq_nonneg _)
        have hS : dot as bs = 0 := by
          exact pow_eq_zero_iff (by norm_num) |>.mp hSz
        rw [hS, ← hB0]
        nlinarith [mul_nonneg hA (sq_nonneg b)]
      · nlinarith [sq_nonneg (a * dot bs bs - b * dot as bs),
          mul_nonneg (sq_nonneg b) (sub_nonneg.mpr hAB),
          mul_nonneg hB (sub_nonneg.mpr hAB), hBpos]

theorem abs_pearsonReal_le_one {x y : List ℚ}
    (hx : dot (devs x) (devs x) ≠ 0) (hy : dot (devs y) (devs y) ≠ 0) :
    |pearsonReal x y| ≤ 1 := by
  have hA : (0 : ℚ) < dot (devs x) (devs x) :=
    lt_of_le_of_ne (dot_self_nonneg _) (Ne.symm hx)
  have hB : (0 : ℚ) < dot (devs y) (devs y) :=
    lt_of_le_of_ne (dot_self_nonneg _) (Ne.symm hy)
  have hAR : (0 : ℝ) < ((dot (devs x) (devs x) : ℚ) : ℝ) := by exact_mod_cast hA
  have hBR : (0 : ℝ) < ((dot (devs y) (devs y) : ℚ) : ℝ) := by exact_mod_cast hB
  have hsA : (0 : ℝ) < Real.sqrt ((dot (devs x) (devs x) : ℚ) : ℝ) := Real.sqrt_pos.mpr hAR
  have hsB : (0 : ℝ) < Real.sqrt ((dot (devs y) (devs y) : ℚ) : ℝ) := Real.sqrt_pos.mpr hBR
  have hcs : ((dot (devs x) (devs y) : ℚ) : ℝ) ^ 2 ≤
      ((dot (devs x) (devs x) : ℚ) : ℝ) * ((dot (devs y) (devs y) : ℚ) : ℝ) := by
    exact_mod_cast dot_sq_le (devs x) (devs y)
  have habs : |((dot (devs x) (devs y) : ℚ) : ℝ)| ≤
      Real.sqrt (((dot (devs x) (devs x) : ℚ) : ℝ) * ((dot (devs y) (devs y) : ℚ) : ℝ)) := by
    rw [← Real.sqrt_sq_eq_abs]
    exact Real.sqrt_le_sqrt hcs
  rw [Real.sqrt_mul hAR.le] at habs
  unfold pearsonReal
  rw [abs_div]
  rw [abs_of_pos (mul_pos hsA hsB)]
  exact div_le_one_of_le habs (mul_pos hsA hsB).le

theorem abs_round4R_le_one {r : ℝ} (h : |r| ≤ 1) : |round4R r| ≤ 1 := by
  have hub : r * 10000 ≤ ((10000 : ℤ) : ℝ) := by
    have := (abs_le.mp h).2
    push_cast
    nlinarith
  have hlb : ((-10000 : ℤ) : ℝ) ≤ r * 10000 := by
    have := (abs_le.mp h).1
    push_cast
    nlinarith
  have h1 : rheF (r * 10000) ≤ 10000 := by
    have := rheF_mono hub
    rwa [rheF_intCast] at this
  have h2 : (-10000 : ℤ) ≤ rheF (r * 10000) := by
    have := rheF_mono hlb
    rwa [rheF_intCast] at this
  unfold round4R
  rw [abs_div, abs_of_pos (by norm_num : (0 : ℝ) < 10000)]
  rw [div_le_one (by norm_num : (0 : ℝ) < 10000)]
  exact abs_le.mpr ⟨by exact_mod_cast h2, by exact_mod_cast h1⟩

/-! ### Permutation lemmas for the Iman-Conover reordering -/

theorem sortQ_eq_of_perm {a b : List ℚ} (h : a.Perm b) : sortQ a = sortQ b :=
  List.eq_of_perm_of_sorted ((sortQ_perm a).trans (h.trans (sortQ_perm b).symm))
    (sortQ_sorted a) (sortQ_sorted b)

theorem map_getD_range (l : List ℚ) :
    (List.range l.length).map (fun i => l.getD i 0) = l := by
  apply List.ext_get
  · simp
  · intro n h1 h2
    simp only [List.get_eq_getElem, List.getElem_map, List.getElem_range]
    exact List.getD_eq_getElem l 0 h2

theorem argsortIdx_perm (keys : List ℚ) : (argsortIdx keys).Perm (List.range keys.length) :=
  List.perm_insertionSort _ _

theorem scatterColumn_length (order : List ℕ) (vals : List ℚ) :
    (scatterColumn order vals).length = vals.length := by
  simp [scatterColumn]

theorem scatterColumn_perm (order : List ℕ) (vals : List ℚ)
    (hp : order.Perm (List.range vals.length)) : (scatterColumn order vals).Perm vals := by
  have hlen : order.length = vals.length := hp.length_eq.trans (List.length_range _)
  have hmem : ∀ j, j < vals.length → j ∈ order := fun j hj =>
    hp.mem_iff.mpr (List.mem_range.mpr hj)
  have hperm2 : ((List.range vals.length).map (fun j => order.indexOf j)).Perm
      (List.range vals.length) := by
    apply List.Subperm.perm_of_length_le
    · apply List.subperm_of_subset
      · apply List.Nodup.map_on ?inj (List.nodup_range _)
        intro x hx y hy hxy
        exact (List.indexOf_inj (hmem x (List.mem_range.mp hx))
          (hmem y (List.mem_range.mp hy))).mp hxy
      · intro x hxmem
        rcases List.mem_map.mp hxmem with ⟨j, hj, rfl⟩
        have hlt : order.indexOf j < order.length :=
          List.indexOf_lt_length.mpr (hmem j (List.mem_range.mp hj))
        exact List.mem_range.mpr (by omega)
    · simp
  have h1 : scatterColumn order vals =
      ((List.range vals.length).map (fun j => order.indexOf j)).map
        (fun i => vals.getD i 0) := by
    rw [List.map_map]
    rfl
  have h2 := hperm2.map (fun i => vals.getD i 0)
  rw [map_getD_range] at h2
  rw [h1]
  exact h2

theorem getColumn_length (j : ℕ) (m : List (List ℚ)) : (getColumn j m).length = m.length := by
  simp [getColumn]

theorem getColumn_buildRows (n : ℕ) (cols : List (List ℚ)) (j : ℕ)
    (hj : j < cols.length) (hcl : (cols.getD j []).length = n) :
    getColumn j (buildRows n cols) = cols.getD j [] := by
  apply List.ext_get
  · rw [hcl]
    simp [getColumn, buildRows]
  · intro i h1 h2
    have hi : i < n := by
      have := h1
      simp [getColumn, buildRows] at this
      exact this
    simp only [getColumn, buildRows, List.get_eq_getElem, List.getElem_map, List.getElem_range]
    have hjm : j < (cols.map (fun c => c.getD i 0)).length := by simpa using hj
    rw [List.getD_eq_getElem _ 0 hjm, List.getElem_map]
    have hgd : cols.getD j [] = cols[j] := List.getD_eq_getElem cols [] hj
    have hilen : i < cols[j].length := by
      rw [← hgd, hcl]
      exact hi
    rw [← hgd] at hilen ⊢
    exact List.getD_eq_getElem _ 0 hilen


/-! ### Characterisation of the transform-stage errors -/

theorem string_append_ne_lit (a x b : String) (i : ℕ) (hia : i < a.data.length)
    (hib : i < b.data.length) (hne : a.data[i]? ≠ b.data[i]?) : a ++ x ≠ b := by
  intro h
  have hd : (a ++ x).data = b.data := congrArg String.data h
  rw [String.data_append] at hd
  have h1 : (a.data ++ x.data)[i]? = a.data[i]? := by
    rw [List.getElem?_append, if_pos hia]
  exact hne (by rw [← h1, hd])

theorem transformSamples_error_iff (o : Oracle) (u : List ℚ) (f : RiskFactor) :
    (∃ m, transformSamples o u f = Except.error m) ↔ badFactor f = true := by
  unfold transformSamples badFactor invalidFactorParams lognormZeroMean
  by_cases h1 : strLower f.distribution = "triangular"
  · rcases hmn : f.min_value with _ | mn <;> rcases hml : f.most_likely with _ | ml <;>
      rcases hmx : f.max_value with _ | mx <;>
      simp [h1, hmn, hml, hmx, supportedDists]
  · by_cases h2 : strLower f.distribution = "normal"
    · rcases hme : f.mean with _ | me <;> rcases hsd : f.std_dev with _ | sd <;>
        simp [h1, h2, hme, hsd, supportedDists]
    · by_cases h3 : strLower f.distribution = "uniform"
      · rcases hmn : f.min_value with _ | mn <;> rcases hmx : f.max_value with _ | mx <;>
          simp [h1, h2, h3, hmn, hmx, supportedDists]
      · by_cases h4 : strLower f.distribution = "lognormal"
        · rcases hme : f.mean with _ | me <;> rcases hsd : f.std_dev with _ | sd <;>
            first
            | (by_cases hm0 : me = 0 <;>
                simp [h1, h2, h3, h4, hme, hsd, hm0, supportedDists])
            | simp [h1, h2, h3, h4, hme, hsd, supportedDists]
        · by_cases h5 : strLower f.distribution = "pert"
          · rcases hmn : f.min_value with _ | mn <;> rcases hml : f.most_likely with _ | ml <;>
              rcases hmx : f.max_value with _ | mx <;>
              simp [h1, h2, h3, h4, h5, hmn, hml, hmx, supportedDists]
            · by_cases hc1 : mx ≤ mn
              · simp [hc1]
              · have hlt : mn < mx := lt_of_not_le hc1
                by_cases hq1 : ml < mn <;> by_cases hq2 : mx < ml <;>
                  simp [hc1, hq1, hq2, hlt]
          · simp [h1, h2, h3, h4, h5, supportedDists]
theorem transformSamples_lower_invariant (o : Oracle) (u : List ℚ) (f : RiskFactor) (s : String)
    (h : strLower s = strLower f.distribution) :
    transformSamples o u { f with distribution := s } = transformSamples o u f := by
  simp only [transformSamples]
  rw [h]

theorem transformSamples_unsupported_iff (o : Oracle) (u : List ℚ) (f : RiskFactor) :
    transformSamples o u f =
        Except.error ("Unsupported distribution type: " ++ strLower f.distribution) ↔
      supportedDists.contains (strLower f.distribution) = false := by
  constructor
  · intro h
    cases hcc : supportedDists.contains (strLower f.distribution)
    · rfl
    · exfalso
      have hmem : strLower f.distribution = "triangular" ∨ strLower f.distribution = "normal" ∨
          strLower f.distribution = "uniform" ∨ strLower f.distribution = "lognormal" ∨
          strLower f.distribution = "pert" := by
        have hm : strLower f.distribution ∈ supportedDists := by
          simpa using hcc
        simpa [supportedDists] using hm
      rcases hmem with he | he | he | he | he
      · rcases hmn : f.min_value with _ | mn <;> rcases hml : f.most_likely with _ | ml <;>
          rcases hmx : f.max_value with _ | mx <;>
          simp [transformSamples, he, hmn, hml, hmx] at h <;>
          exact absurd h (string_append_ne_lit _ _ _ 0 (by decide) (by decide) (by decide))
      · rcases hme : f.mean with _ | me <;> rcases hsd : f.std_dev with _ | sd <;>
          simp [transformSamples, he, hme, hsd] at h <;>
          exact absurd h (string_append_ne_lit _ _ _ 0 (by decide) (by decide) (by decide))
      · rcases hmn : f.min_value with _ | mn <;> rcases hmx : f.max_value with _ | mx <;>
          simp [transformSamples, he, hmn, hmx] at h <;>
          exact absurd h (string_append_ne_lit _ _ _ 2 (by decide) (by decide) (by decide))
      · rcases hme : f.mean with _ | me <;> rcases hsd : f.std_dev with _ | sd <;>
          first
          | ((by_cases hm0 : me = 0 <;> simp [transformSamples, he, hme, hsd, hm0] at h) <;>
              done)
          | (simp [transformSamples, he, hme, hsd] at h <;>
              exact absurd h (string_append_ne_lit _ _ _ 0 (by decide) (by decide) (by decide)))
      · rcases hmn : f.min_value with _ | mn <;> rcases hml : f.most_likely with _ | ml <;>
          rcases hmx : f.max_value with _ | mx
        case some.some.some =>
          by_cases hc1 : mx ≤ mn
          · simp [transformSamples, he, hmn, hml, hmx, hc1] at h
            exact absurd h (string_append_ne_lit _ _ _ 0 (by decide) (by decide) (by decide))
          · have hlt : mn < mx := lt_of_not_le hc1
            by_cases hq1 : ml < mn <;> by_cases hq2 : mx < ml <;>
              simp [transformSamples, he, hmn, hml, hmx, hc1, hq1, hq2, hlt] at h <;>
              exact absurd h (string_append_ne_lit _ _ _ 0 (by decide) (by decide) (by decide))
        all_goals
          simp [transformSamples, he, hmn, hml, hmx] at h <;>
          exact absurd h (string_append_ne_lit _ _ _ 0 (by decide) (by decide) (by decide))
  · intro h
    have h1 : strLower f.distribution ≠ "triangular" := by
      intro he; rw [he] at h; exact absurd h (by decide)
    have h2 : strLower f.distribution ≠ "normal" := by
      intro he; rw [he] at h; exact absurd h (by decide)
    have h3 : strLower f.distribution ≠ "uniform" := by
      intro he; rw [he] at h; exact absurd h (by decide)
    have h4 : strLower f.distribution ≠ "lognormal" := by
      intro he; rw [he] at h; exact absurd h (by decide)
    have h5 : strLower f.distribution ≠ "pert" := by
      intro he; rw [he] at h; exact absurd h (by decide)
    simp only [transformSamples]
    rw [if_neg h1, if_neg h2, if_neg h3, if_neg h4, if_neg h5]

theorem transformSamples_pert_max_le_min (o : Oracle) (u : List ℚ) (name : String)
    (mn ml mx : ℚ) (hle : mx ≤ mn) :
    transformSamples o u
        { name := name, distribution := "pert", min_value := some mn,
          most_likely := some ml, max_value := some mx } =
      Except.error ("PERT distribution requires max > min: " ++ name) := by
  have hp : strLower "pert" = "pert" := rfl
  simp [transformSamples, hp, hle]

theorem transformCols_ok_iff (o : Oracle) (lhs : List (List ℚ)) :
    ∀ (j : ℕ) (fs : List (String × RiskFactor)),
      (∃ cs, transformCols o lhs j fs = Except.ok cs) ↔ ∀ p ∈ fs, badFactor p.2 = false := by
  intro j fs
  induction fs generalizing j with
  | nil => simp [transformCols]
  | cons hd tl ih =>
    rcases hd with ⟨name, f⟩
    constructor
    · rintro ⟨cs, hcs⟩
      intro p hp
      unfold transformCols at hcs
      rcases hres : transformSamples o (getColumn j lhs) f with m | col
      · rw [hres] at hcs
        cases hcs
      · rw [hres] at hcs
        rcases hres2 : transformCols o lhs (j + 1) tl with m2 | cols2
        · rw [hres2] at hcs
          cases hcs
        · rcases List.mem_cons.mp hp with hpe | hpt
          · rw [hpe]
            cases hb : badFactor f
            · rfl
            · exfalso
              rcases (transformSamples_error_iff o (getColumn j lhs) f).mpr hb with ⟨m, hm⟩
              rw [hm] at hres
              cases hres
          · exact (ih (j + 1)).mp ⟨cols2, hres2⟩ p hpt
    · intro hall
      have hf : badFactor f = false := hall (name, f) (List.mem_cons_self _ _)
      rcases hres : transformSamples o (getColumn j lhs) f with m | col
      · exfalso
        have hb := (transformSamples_error_iff o (getColumn j lhs) f).mp ⟨m, hres⟩
        rw [hf] at hb
        cases hb
      · rcases (ih (j + 1)).mpr (fun p hp => hall p (List.mem_cons_of_mem _ hp)) with ⟨cs2, hcs2⟩
        refine ⟨col :: cs2, ?_⟩
        unfold transformCols
        rw [hres, hcs2]

theorem transformCols_length (o : Oracle) (lhs : List (List ℚ)) :
    ∀ (j : ℕ) (fs : List (String × RiskFactor)) (cs : List (List ℚ)),
      transformCols o lhs j fs = Except.ok cs → cs.length = fs.length := by
  intro j fs
  induction fs generalizing j with
  | nil =>
    intro cs h
    unfold transformCols at h
    cases h
    rfl
  | cons hd tl ih =>
    intro cs h
    rcases hd with ⟨name, f⟩
    unfold transformCols at h
    rcases hres : transformSamples o (getColumn j lhs) f with m | col
    · rw [hres] at h
      cases h
    · rw [hres] at h
      rcases hres2 : transformCols o lhs (j + 1) tl with m2 | cols2
      · rw [hres2] at h
        cases h
      · rw [hres2] at h
        cases h
        simp [ih (j + 1) cols2 hres2]




/-- `pipelineMatrix` without a correlation matrix is exactly the transform
stage. -/
theorem pipelineMatrix_none_def (o : Oracle) (iterations : ℕ) (seed : ℤ)
    (factors : List (String × RiskFactor)) :
    pipelineMatrix o iterations seed factors none =
      (match transformCols o (o.lhsSample seed iterations factors.length) 0 factors with
      | Except.error m => Except.error (RunError.valueError m)
      | Except.ok cols =>
          Except.ok (buildRows (o.lhsSample seed iterations factors.length).length cols)) := rfl

/-- `pipelineMatrix` with a correlation matrix: transform, validate,
apply Iman-Conover. -/
theorem pipelineMatrix_some_def (o : Oracle) (iterations : ℕ) (seed : ℤ)
    (factors : List (String × RiskFactor)) (m : List (List ℚ)) :
    pipelineMatrix o iterations seed factors (some m) =
      (match transformCols o (o.lhsSample seed iterations factors.length) 0 factors with
      | Except.error msg => Except.error (RunError.valueError msg)
      | Except.ok cols =>
          match validateCorrelationMatrix m factors.length with
          | Except.error e => Except.error e
          | Except.ok _ =>
              match applyImanConover o
                  (buildRows (o.lhsSample seed iterations factors.length).length cols) m with
              | Except.error msg => Except.error (RunError.valueError msg)
              | Except.ok corr => Except.ok corr) := rfl

/-- The aggregation stage of `run_analysis` on a non-empty factor list. -/
theorem runAnalysis_nonzero_def (o : Oracle) (iterations : ℕ) (seed : ℤ) (base : ℚ)
    (factors : List (String × RiskFactor)) (corrM : Option (List (List ℚ)))
    (levels : List ℚ) (hz : ¬factors.length = 0) :
    runAnalysis o iterations seed base factors corrM levels =
      (match pipelineMatrix o iterations seed factors corrM with
      | Except.error e => Except.error e
      | Except.ok M =>
          Except.ok
            { base_cost := base
              mean_cost := round2 (npMean (riskAdjustedCosts base M))
              std_dev := round2 (o.sqrtApprox (popVariance (riskAdjustedCosts base M)))
              percentiles := levels.map (fun l =>
                (pKey l, round2 (npPercentile (riskAdjustedCosts base M) (l * 100))))
              min_cost := round2 (npMin (riskAdjustedCosts base M))
              max_cost := round2 (npMax (riskAdjustedCosts base M))
              iterations := iterations
              risk_factors_applied := factors.map Prod.fst
              sensitivities := computeSpearmanSensitivity o M (riskAdjustedCosts base M)
                (factors.map Prod.fst) }) := by
  unfold runAnalysis
  rw [if_neg hz]


/-- Claim C6: with an empty risk-factor list, `run_analysis` returns
`base_cost` as mean, min and max, `std_dev = 0`, every requested confidence
level mapped to `base_cost`, empty `risk_factors_applied` and
`sensitivities`; and the result is independent of the sampler, the
numerical oracle and the seed, i.e. no sampling is run. -/
theorem claim_C6_zero_factors (o o2 : Oracle) (iterations : ℕ) (seed seed2 : ℤ)
    (baseCost : ℚ) (corrM : Option (List (List ℚ))) (levels : List ℚ) :
    runAnalysis o iterations seed baseCost [] corrM levels =
      Except.ok
        { base_cost := baseCost, mean_cost := baseCost, std_dev := 0,
          percentiles := levels.map (fun l => (pKey l, baseCost)),
          min_cost := baseCost, max_cost := baseCost, iterations := iterations,
          risk_factors_applied := [], sensitivities := [] } ∧
    runAnalysis o iterations seed baseCost [] corrM levels =
      runAnalysis o2 iterations seed2 baseCost [] corrM levels := by
  exact ⟨rfl, rfl⟩

/-- Claim C5: `run_analysis` is deterministic — two calls with identical
iterations, seed, base cost, risk factors, correlation matrix and
confidence levels produce identical `SimulationResult` values.  In the
embedding the seeded sampler and all numerical routines are functions of
their inputs (the `Oracle`), which is exactly the source situation:
`np.random.seed` and the seeded `qmc.LatinHypercube` leave no hidden
state. -/
theorem claim_C5_determinism (o : Oracle) (it1 it2 : ℕ) (s1 s2 : ℤ) (b1 b2 : ℚ)
    (fs1 fs2 : List (String × RiskFactor)) (m1 m2 : Option (List (List ℚ)))
    (l1 l2 : List ℚ) (hit : it1 = it2) (hs : s1 = s2) (hb : b1 = b2)
    (hf : fs1 = fs2) (hm : m1 = m2) (hl : l1 = l2) :
    runAnalysis o it1 s1 b1 fs1 m1 l1 = runAnalysis o it2 s2 b2 fs2 m2 l2 := by
  subst hit hs hb hf hm hl
  rfl

theorem claim_C5_witness :
    runAnalysis oracle0 3 42 100 [] none [1 / 2] =
      runAnalysis oracle0 3 42 100 [] none [1 / 2] :=
  claim_C5_determinism oracle0 3 3 42 42 100 100 [] [] none none [1 / 2] [1 / 2]
    rfl rfl rfl rfl rfl rfl

/-- Claim C8 (counterexample): a PERT factor with `max_value = min_value`
makes `_transform_samples` raise the `max > min` `ValueError` instead of
returning `most_likely` for every sample — the degenerate branch that
would return the mode is unreachable behind this check. -/
theorem claim_C8_counterexample :
    transformSamples oracle0 [1 / 2]
        { name := "f", distribution := "pert", min_value := some 1,
          most_likely := some 1, max_value := some 1 } =
      Except.error ("PERT distribution requires max > min: f") := by
  decide

/-- Claim C8 (amended): for a PERT risk factor with
`max_value ≤ min_value` (in particular `max_value = min_value`), sampling
fails with the invalid-parameter error naming the factor; the
return-the-mode degenerate branch in the source is dead code. -/
theorem claim_C8_amended (o : Oracle) (u : List ℚ) (name : String) (mn ml mx : ℚ)
    (hle : mx ≤ mn) :
    transformSamples o u
        { name := name, distribution := "pert", min_value := some mn,
          most_likely := some ml, max_value := some mx } =
      Except.error ("PERT distribution requires max > min: " ++ name) :=
  transformSamples_pert_max_le_min o u name mn ml mx hle

theorem claim_C8_witness :
    (1 : ℚ) ≤ 1 ∧
      transformSamples oracle0 [1 / 2]
          { name := "g", distribution := "pert", min_value := some 1,
            most_likely := some 1, max_value := some 1 } =
        Except.error ("PERT distribution requires max > min: " ++ "g") :=
  ⟨le_refl 1, claim_C8_amended oracle0 [1 / 2] "g" 1 1 1 (le_refl 1)⟩

/-- Claim C10: distribution names are matched case-insensitively — the
name is lowercased before dispatch, so a factor with distribution `s` is
transformed identically to one with any string of the same lowercase form;
and the unsupported-distribution error occurs exactly when the lowercased
name is none of triangular, normal, uniform, lognormal, pert. -/
theorem claim_C10_case_insensitive (o : Oracle) (u : List ℚ) (f : RiskFactor)
    (s : String) (h : strLower s = strLower f.distribution) :
    transformSamples o u { f with distribution := s } = transformSamples o u f ∧
    (transformSamples o u f =
        Except.error ("Unsupported distribution type: " ++ strLower f.distribution) ↔
      supportedDists.contains (strLower f.distribution) = false) :=
  ⟨transformSamples_lower_invariant o u f s h, transformSamples_unsupported_iff o u f⟩

theorem claim_C10_witness :
    strLower "NORMAL" = strLower "normal" ∧
      (transformSamples oracle0 [1 / 2]
          { name := "n", distribution := "NORMAL", mean := some 0, std_dev := some 1 } =
        transformSamples oracle0 [1 / 2]
          { name := "n", distribution := "normal", mean := some 0, std_dev := some 1 } ∧
      (transformSamples oracle0 [1 / 2]
          { name := "n", distribution := "normal", mean := some 0, std_dev := some 1 } =
          Except.error ("Unsupported distribution type: " ++
            strLower ("normal" : String)) ↔
        supportedDists.contains (strLower ("normal" : String)) = false)) :=
  ⟨by decide,
    claim_C10_case_insensitive oracle0 [1 / 2]
      { name := "n", distribution := "normal", mean := some 0, std_dev := some 1 }
      "NORMAL" (by decide)⟩

/-- Claim C1 (counterexample): a triangular factor whose `most_likely`
exceeds `max_value` is NOT rejected — the whole run returns a result
instead of failing with an invalid-parameter error, contradicting the
claim that inconsistent min/likely/max parameters abort the run. -/
theorem claim_C1_counterexample :
    runAnalysis oracle0 1 0 100
        [("w", { name := "w", distribution := "triangular", min_value := some 0,
                 most_likely := some 5, max_value := some 1 })] none [] =
      Except.ok
        { base_cost := 100, mean_cost := 100, std_dev := 0, percentiles := [],
          min_cost := 100, max_cost := 100, iterations := 1,
          risk_factors_applied := ["w"], sensitivities := [("w", 0)] } := by
  with_unfolding_all decide

/-- Claim C1 (amended): `_transform_samples` raises an error exactly when
a required parameter is missing (any distribution), the factor is PERT
with `max ≤ min` or mode outside `[min, max]`, the factor is lognormal
with `mean = 0` (a `ZeroDivisionError` from the pure-Python
`std**2 / mean**2` in the sigma derivation), or the distribution name is
unsupported; range violations for triangular/uniform and non-positive
`std_dev` for normal/lognormal are not rejected (scipy silently yields
NaN samples).  At run level (without a correlation matrix) any failing
factor aborts the whole run with an error and no result, and a run whose
factors all pass these checks succeeds — the success direction is stated
under the preconditions of the downstream numpy reductions (at least one
sample row, confidence levels strictly inside `(0, 1)`), which the engine
itself does not check. -/
theorem claim_C1_amended (o : Oracle) (u : List ℚ) (f : RiskFactor)
    (iterations : ℕ) (seed : ℤ) (base : ℚ) (factors : List (String × RiskFactor))
    (levels : List ℚ) :
    ((∃ m, transformSamples o u f = Except.error m) ↔ badFactor f = true) ∧
    ((∃ p ∈ factors, badFactor p.2 = true) →
      ∃ e, runAnalysis o iterations seed base factors none levels = Except.error e) ∧
    (0 < (o.lhsSample seed iterations factors.length).length →
      (∀ l ∈ levels, 0 < l ∧ l < 1) →
      (∀ p ∈ factors, badFactor p.2 = false) →
      ∃ r, runAnalysis o iterations seed base factors none levels = Except.ok r) := by
  refine ⟨transformSamples_error_iff o u f, ?_, ?_⟩
  · rintro ⟨p, hp, hbad⟩
    have hz : ¬factors.length = 0 := by
      intro h0
      rw [List.length_eq_zero.mp h0] at hp
      cases hp
    rw [runAnalysis_nonzero_def o iterations seed base factors none levels hz,
      pipelineMatrix_none_def]
    rcases htc : transformCols o (o.lhsSample seed iterations factors.length) 0 factors
      with m | cols
    · exact ⟨RunError.valueError m, by simp only [htc]⟩
    · exfalso
      have hall := (transformCols_ok_iff o _ 0 factors).mp ⟨cols, htc⟩
      rw [hall p hp] at hbad
      cases hbad
  · intro _ _ hall
    by_cases hz : factors.length = 0
    · have hnil : factors = [] := List.length_eq_zero.mp hz
      subst hnil
      exact ⟨_, rfl⟩
    · rcases (transformCols_ok_iff o (o.lhsSample seed iterations factors.length) 0
          factors).mpr hall with ⟨cols, htc⟩
      rw [runAnalysis_nonzero_def o iterations seed base factors none levels hz,
        pipelineMatrix_none_def]
      simp only [htc]
      exact ⟨_, rfl⟩

theorem claim_C1_witness :
    0 < (oracle0.lhsSample 0 1
      ([("u", ({ name := "u", distribution := "uniform", min_value := some 0, max_value := some 1 } : RiskFactor))].length)).length ∧
    (∀ l ∈ ([] : List ℚ), 0 < l ∧ l < 1) ∧
    (∀ p ∈ [("u", ({ name := "u", distribution := "uniform", min_value := some 0, max_value := some 1 } : RiskFactor))],
      badFactor p.2 = false) ∧
    ∃ r, runAnalysis oracle0 1 0 100
        [("u", ({ name := "u", distribution := "uniform", min_value := some 0, max_value := some 1 } : RiskFactor))]
        none [] = Except.ok r :=
  ⟨by with_unfolding_all decide, by simp, by with_unfolding_all decide,
    (claim_C1_amended oracle0 []
        ({ name := "u", distribution := "uniform", min_value := some 0, max_value := some 1 } : RiskFactor)
        1 0 100
        [("u", ({ name := "u", distribution := "uniform", min_value := some 0, max_value := some 1 } : RiskFactor))]
        []).2.2
      (by with_unfolding_all decide) (by simp) (by with_unfolding_all decide)⟩

theorem getD_map_range (n j : ℕ) (F : ℕ → List ℚ) (hj : j < n) :
    ((List.range n).map F).getD j [] = F j := by
  rw [List.getD_eq_getElem _ [] (by simpa using hj), List.getElem_map, List.getElem_range]

theorem rankdataAvg_length (a : List ℚ) : (rankdataAvg a).length = a.length := by
  simp [rankdataAvg]

theorem imanCorrelated_length (o : Oracle) (samples L : List (List ℚ)) :
    (imanCorrelated o samples L).length = samples.length := by
  simp [imanCorrelated, buildRows]

theorem buildRows_headD_length (n : ℕ) (cols : List (List ℚ)) (hn : 0 < n) :
    ((buildRows n cols).headD []).length = cols.length := by
  unfold buildRows
  cases n with
  | zero => omega
  | succ k =>
    rw [List.range_succ_eq_map]
    simp

theorem validateCorrelationMatrix_ok_iff (m : List (List ℚ)) (n : ℕ) :
    validateCorrelationMatrix m n = Except.ok () ↔
      shapeOkB m n = true ∧ symOkB m n = true ∧ diagOkB m n = true ∧ rangeOkB m n = true := by
  unfold validateCorrelationMatrix
  by_cases h1 : shapeOkB m n <;> by_cases h2 : symOkB m n <;> by_cases h3 : diagOkB m n <;>
    by_cases h4 : rangeOkB m n <;> simp [h1, h2, h3, h4]

/-- Claim C3: for every sample matrix and every correlation matrix whose
Cholesky factorisation succeeds (valid positive-definite case), each
column of the Iman-Conover output is a permutation of the corresponding
input column — the sorted column (equivalently the multiset of values) is
identical before and after correlation induction. -/
theorem claim_C3_marginals (o : Oracle) (samples m L : List (List ℚ)) (j : ℕ)
    (hchol : o.cholesky m = some L)
    (hshape : shapeOkB m ((samples.headD []).length) = true)
    (hj : j < (samples.headD []).length) :
    ∃ res, applyImanConover o samples m = Except.ok res ∧
      (getColumn j res).Perm (getColumn j samples) ∧
      sortQ (getColumn j res) = sortQ (getColumn j samples) := by
  have hd : applyImanConover o samples m =
      Except.ok (buildRows samples.length (imanResultCols o samples L)) := by
    simp only [applyImanConover]
    rw [hshape]
    simp [hchol]
  have hcols_len : (imanResultCols o samples L).length = (samples.headD []).length := by
    simp [imanResultCols]
  have hgd : (imanResultCols o samples L).getD j [] =
      scatterColumn (argsortIdx (rankdataAvg (getColumn j (imanCorrelated o samples L))))
        (sortQ (getColumn j samples)) := by
    unfold imanResultCols
    exact getD_map_range _ _ _ hj
  have hslen : ((imanResultCols o samples L).getD j []).length = samples.length := by
    rw [hgd, scatterColumn_length, sortQ_length, getColumn_length]
  have hcol : getColumn j (buildRows samples.length (imanResultCols o samples L)) =
      scatterColumn (argsortIdx (rankdataAvg (getColumn j (imanCorrelated o samples L))))
        (sortQ (getColumn j samples)) := by
    rw [getColumn_buildRows samples.length _ j (by rw [hcols_len]; exact hj) hslen, hgd]
  have hkeylen : (rankdataAvg (getColumn j (imanCorrelated o samples L))).length =
      (sortQ (getColumn j samples)).length := by
    rw [rankdataAvg_length, getColumn_length, imanCorrelated_length, sortQ_length,
      getColumn_length]
  have hap := argsortIdx_perm (rankdataAvg (getColumn j (imanCorrelated o samples L)))
  rw [hkeylen] at hap
  have hperm : (getColumn j (buildRows samples.length (imanResultCols o samples L))).Perm
      (getColumn j samples) := by
    rw [hcol]
    exact (scatterColumn_perm _ _ hap).trans (sortQ_perm _)
  exact ⟨_, hd, hperm, sortQ_eq_of_perm hperm⟩

theorem claim_C3_witness :
    ∃ res, applyImanConover oracleC [[1], [3], [2]] [[1]] = Except.ok res ∧
      (getColumn 0 res).Perm (getColumn 0 [[1], [3], [2]]) ∧
      sortQ (getColumn 0 res) = sortQ (getColumn 0 [[1], [3], [2]]) :=
  claim_C3_marginals oracleC [[1], [3], [2]] [[1]] [[1]] 0 rfl (by decide) (by decide)

/-- Claim C2: when a correlation matrix is supplied, validation raises a
`BusinessRuleViolation` with a distinct sub-code for shape mismatch,
asymmetry, bad diagonal and out-of-range entries (in that order, before
the Iman-Conover reordering is ever invoked); a matrix passing all four
checks does not raise, and when it is merely not positive definite
(Cholesky fails) the whole run returns exactly the results of the
uncorrelated run. -/
theorem claim_C2_correlation_matrix (m : List (List ℚ)) (o : Oracle) (iterations : ℕ)
    (seed : ℤ) (base : ℚ) (factors : List (String × RiskFactor)) (levels : List ℚ) :
    (shapeOkB m factors.length = false →
      ∃ msg, validateCorrelationMatrix m factors.length =
        Except.error (RunError.businessRule msg "INVALID_CORRELATION_MATRIX_SHAPE")) ∧
    (shapeOkB m factors.length = true → symOkB m factors.length = false →
      ∃ msg, validateCorrelationMatrix m factors.length =
        Except.error (RunError.businessRule msg "CORRELATION_MATRIX_NOT_SYMMETRIC")) ∧
    (shapeOkB m factors.length = true → symOkB m factors.length = true →
        diagOkB m factors.length = false →
      ∃ msg, validateCorrelationMatrix m factors.length =
        Except.error (RunError.businessRule msg "CORRELATION_MATRIX_INVALID_DIAGONAL")) ∧
    (shapeOkB m factors.length = true → symOkB m factors.length = true →
        diagOkB m factors.length = true → rangeOkB m factors.length = false →
      ∃ msg, validateCorrelationMatrix m factors.length =
        Except.error (RunError.businessRule msg "CORRELATION_MATRIX_OUT_OF_RANGE")) ∧
    (shapeOkB m factors.length = true → symOkB m factors.length = true →
        diagOkB m factors.length = true → rangeOkB m factors.length = true →
      validateCorrelationMatrix m factors.length = Except.ok ()) ∧
    (List.Pairwise (fun a b => a ≠ b)
      (["INVALID_CORRELATION_MATRIX_SHAPE", "CORRELATION_MATRIX_NOT_SYMMETRIC",
        "CORRELATION_MATRIX_INVALID_DIAGONAL", "CORRELATION_MATRIX_OUT_OF_RANGE"] :
        List String)) ∧
    (validateCorrelationMatrix m factors.length = Except.ok () →
      o.cholesky m = none →
      0 < (o.lhsSample seed iterations factors.length).length →
      runAnalysis o iterations seed base factors (some m) levels =
        runAnalysis o iterations seed base factors none levels) := by
  refine ⟨?_, ?_, ?_, ?_, ?_, ?_, ?_⟩
  · intro ha
    refine ⟨"Correlation matrix shape does not match " ++ toString factors.length ++
      " risk factors", ?_⟩
    simp [validateCorrelationMatrix, ha]
  · intro ha hb
    refine ⟨"Correlation matrix must be symmetric", ?_⟩
    simp [validateCorrelationMatrix, ha, hb]
  · intro ha hb hc
    refine ⟨"Correlation matrix diagonal must be all 1.0", ?_⟩
    simp [validateCorrelationMatrix, ha, hb, hc]
  · intro ha hb hc hd
    refine ⟨"Correlation matrix values must be in range [-1, 1]", ?_⟩
    simp [validateCorrelationMatrix, ha, hb, hc, hd]
  · intro ha hb hc hd
    simp [validateCorrelationMatrix, ha, hb, hc, hd]
  · decide
  · intro hval hchol hlhs
    by_cases hz : factors.length = 0
    · have hnil : factors = [] := List.length_eq_zero.mp hz
      subst hnil
      rfl
    · rw [runAnalysis_nonzero_def o iterations seed base factors (some m) levels hz,
        runAnalysis_nonzero_def o iterations seed base factors none levels hz,
        pipelineMatrix_some_def, pipelineMatrix_none_def]
      rcases htc : transformCols o (o.lhsSample seed iterations factors.length) 0 factors
        with msg | cols
      · simp only [htc]
      · simp only [htc, hval]
        have hhead : ((buildRows (o.lhsSample seed iterations factors.length).length
            cols).headD []).length = cols.length :=
          buildRows_headD_length _ _ hlhs
        have hclen : cols.length = factors.length :=
          transformCols_length o _ 0 factors cols htc
        have hshape : shapeOkB m
            ((buildRows (o.lhsSample seed iterations factors.length).length
              cols).headD []).length = true := by
          rw [hhead, hclen]
          exact ((validateCorrelationMatrix_ok_iff m factors.length).mp hval).1
        have hiok : applyImanConover o
            (buildRows (o.lhsSample seed iterations factors.length).length cols) m =
            Except.ok (buildRows (o.lhsSample seed iterations factors.length).length cols) := by
          simp only [applyImanConover]
          rw [hshape]
          simp [hchol]
        simp only [hiok]

theorem claim_C2_witness :
    runAnalysis oracle0 1 0 100
        [("u", { name := "u", distribution := "uniform", min_value := some 0,
                 max_value := some 1 })] (some [[1]]) [] =
      runAnalysis oracle0 1 0 100
        [("u", { name := "u", distribution := "uniform", min_value := some 0,
                 max_value := some 1 })] none [] :=
  (claim_C2_correlation_matrix [[1]] oracle0 1 0 100
      [("u", { name := "u", distribution := "uniform", min_value := some 0,
               max_value := some 1 })] []).2.2.2.2.2.2
    (by with_unfolding_all decide) rfl (by with_unfolding_all decide)

/-- Claim C9: the sensitivities output maps each factor name, in order, to
the Spearman coefficient — the Pearson correlation of the ranks of that
factor column with the ranks of the cost vector — rounded to 4 decimal
places; and under exact real semantics any such coefficient with
non-degenerate rank variances lies in `[-1, 1]` even after rounding. -/
theorem claim_C9_sensitivities (o : Oracle) (M : List (List ℚ)) (costs : List ℚ)
    (names : List String) (x y : List ℚ)
    (hx : dot (devs (rankdataAvg x)) (devs (rankdataAvg x)) ≠ 0)
    (hy : dot (devs (rankdataAvg y)) (devs (rankdataAvg y)) ≠ 0) :
    computeSpearmanSensitivity o M costs names =
      names.enum.map (fun p =>
        (p.2, round4 (pearsonWith o.sqrtApprox (rankdataAvg (getColumn p.1 M))
          (rankdataAvg costs)))) ∧
    |round4R (spearmanReal x y)| ≤ 1 := by
  constructor
  · rfl
  · exact abs_round4R_le_one (abs_pearsonReal_le_one hx hy)

theorem claim_C9_witness :
    dot (devs (rankdataAvg [0, 1])) (devs (rankdataAvg [0, 1])) ≠ 0 ∧
      (computeSpearmanSensitivity oracle0 [[0], [1]] [0, 1] ["a"] =
        (["a"] : List String).enum.map (fun p =>
          (p.2, round4 (pearsonWith oracle0.sqrtApprox
            (rankdataAvg (getColumn p.1 [[0], [1]])) (rankdataAvg [0, 1])))) ∧
      |round4R (spearmanReal [0, 1] [0, 1])| ≤ 1) :=
  ⟨by with_unfolding_all decide,
    claim_C9_sensitivities oracle0 [[0], [1]] [0, 1] ["a"] [0, 1] [0, 1]
      (by with_unfolding_all decide) (by with_unfolding_all decide)⟩

/-- Claim C4: for every successful run with a non-empty factor set, the
reported statistics are the round-to-2-decimals images of the exact mean,
standard deviation (float square root of the population variance),
minimum, maximum and linear-interpolation percentiles of the risk-adjusted
cost vector `base_cost · (1 + Σ row)` — rounding is applied only at the
output boundary, never inside the statistics. -/
theorem claim_C4_aggregator (o : Oracle) (iterations : ℕ) (seed : ℤ) (base : ℚ)
    (factors : List (String × RiskFactor)) (corrM : Option (List (List ℚ)))
    (levels : List ℚ) (r : SimResult) (hne : factors ≠ [])
    (hrun : runAnalysis o iterations seed base factors corrM levels = Except.ok r) :
    ∃ M, pipelineMatrix o iterations seed factors corrM = Except.ok M ∧
      r.mean_cost = round2 (npMean (riskAdjustedCosts base M)) ∧
      r.std_dev = round2 (o.sqrtApprox (popVariance (riskAdjustedCosts base M))) ∧
      r.percentiles = levels.map (fun l =>
        (pKey l, round2 (npPercentile (riskAdjustedCosts base M) (l * 100)))) ∧
      r.min_cost = round2 (npMin (riskAdjustedCosts base M)) ∧
      r.max_cost = round2 (npMax (riskAdjustedCosts base M)) ∧
      r.risk_factors_applied = factors.map Prod.fst ∧
      r.sensitivities = computeSpearmanSensitivity o M (riskAdjustedCosts base M)
        (factors.map Prod.fst) := by
  have hz : ¬factors.length = 0 := by
    intro h
    exact hne (List.length_eq_zero.mp h)
  rw [runAnalysis_nonzero_def o iterations seed base factors corrM levels hz] at hrun
  rcases hp : pipelineMatrix o iterations seed factors corrM with e | M
  · rw [hp] at hrun
    cases hrun
  · rw [hp] at hrun
    injection hrun with h
    subst h
    exact ⟨M, rfl, rfl, rfl, rfl, rfl, rfl, rfl, rfl⟩

set_option maxRecDepth 8000 in
theorem claim_C4_witness :
    ∃ M, pipelineMatrix oracle0 1 0
        [("u", { name := "u", distribution := "uniform", min_value := some 0,
                 max_value := some 1 })] none = Except.ok M ∧
      SimResult.mean_cost
          { base_cost := 100, mean_cost := 100, std_dev := 0,
            percentiles := [("p50", 100)], min_cost := 100,
            max_cost := 100, iterations := 1, risk_factors_applied := ["u"],
            sensitivities := [("u", 0)] } =
        round2 (npMean (riskAdjustedCosts 100 M)) ∧
      SimResult.std_dev
          { base_cost := 100, mean_cost := 100, std_dev := 0,
            percentiles := [("p50", 100)], min_cost := 100,
            max_cost := 100, iterations := 1, risk_factors_applied := ["u"],
            sensitivities := [("u", 0)] } =
        round2 (oracle0.sqrtApprox (popVariance (riskAdjustedCosts 100 M))) ∧
      SimResult.percentiles
          { base_cost := 100, mean_cost := 100, std_dev := 0,
            percentiles := [("p50", 100)], min_cost := 100,
            max_cost := 100, iterations := 1, risk_factors_applied := ["u"],
            sensitivities := [("u", 0)] } =
        [(1 / 2 : ℚ)].map (fun l =>
          (pKey l, round2 (npPercentile (riskAdjustedCosts 100 M) (l * 100)))) ∧
      SimResult.min_cost
          { base_cost := 100, mean_cost := 100, std_dev := 0,
            percentiles := [("p50", 100)], min_cost := 100,
            max_cost := 100, iterations := 1, risk_factors_applied := ["u"],
            sensitivities := [("u", 0)] } =
        round2 (npMin (riskAdjustedCosts 100 M)) ∧
      SimResult.max_cost
          { base_cost := 100, mean_cost := 100, std_dev := 0,
            percentiles := [("p50", 100)], min_cost := 100,
            max_cost := 100, iterations := 1, risk_factors_applied := ["u"],
            sensitivities := [("u", 0)] } =
        round2 (npMax (riskAdjustedCosts 100 M)) ∧
      SimResult.risk_factors_applied
          { base_cost := 100, mean_cost := 100, std_dev := 0,
            percentiles := [("p50", 100)], min_cost := 100,
            max_cost := 100, iterations := 1, risk_factors_applied := ["u"],
            sensitivities := [("u", 0)] } =
        [("u", ({ name := "u", distribution := "uniform", min_value := some 0, max_value := some 1 } : RiskFactor))].map Prod.fst ∧
      SimResult.sensitivities
          { base_cost := 100, mean_cost := 100, std_dev := 0,
            percentiles := [("p50", 100)], min_cost := 100,
            max_cost := 100, iterations := 1, risk_factors_applied := ["u"],
            sensitivities := [("u", 0)] } =
        computeSpearmanSensitivity oracle0 M (riskAdjustedCosts 100 M)
          ([("u", ({ name := "u", distribution := "uniform", min_value := some 0, max_value := some 1 } : RiskFactor))].map Prod.fst) :=
  claim_C4_aggregator oracle0 1 0 100
    [("u", { name := "u", distribution := "uniform", min_value := some 0,
             max_value := some 1 })] none [1 / 2]
    { base_cost := 100, mean_cost := 100, std_dev := 0,
      percentiles := [("p50", 100)], min_cost := 100,
      max_cost := 100, iterations := 1, risk_factors_applied := ["u"],
      sensitivities := [("u", 0)] }
    (by simp) (by with_unfolding_all decide)


/-- Claim C7: for every result of `run_analysis` with the default
confidence levels `[0.50, 0.80, 0.95]`, the reported percentiles satisfy
`p50 ≤ p80 ≤ p95` — proved without needing the variance > 0 proviso of the
claim, which only strengthens it — and every reported percentile lies
between `min_cost` and `max_cost`. -/
theorem claim_C7_percentile_monotonicity (o : Oracle) (iterations : ℕ) (seed : ℤ)
    (base : ℚ) (factors : List (String × RiskFactor)) (corrM : Option (List (List ℚ)))
    (r : SimResult)
    (hrun : runAnalysis o iterations seed base factors corrM
      [1 / 2, 4 / 5, 19 / 20] = Except.ok r) :
    ∃ v50 v80 v95, r.percentiles = [("p50", v50), ("p80", v80), ("p95", v95)] ∧
      v50 ≤ v80 ∧ v80 ≤ v95 ∧
      ∀ kv ∈ r.percentiles, r.min_cost ≤ kv.2 ∧ kv.2 ≤ r.max_cost := by
  have hk50 : pKey (1 / 2) = "p50" := by with_unfolding_all decide
  have hk80 : pKey (4 / 5) = "p80" := by with_unfolding_all decide
  have hk95 : pKey (19 / 20) = "p95" := by with_unfolding_all decide
  have e50 : (1 / 2 : ℚ) * 100 = 50 := by norm_num
  have e80 : (4 / 5 : ℚ) * 100 = 80 := by norm_num
  have e95 : (19 / 20 : ℚ) * 100 = 95 := by norm_num
  by_cases hz : factors.length = 0
  · have hnil : factors = [] := List.length_eq_zero.mp hz
    subst hnil
    have hzero : runAnalysis o iterations seed base [] corrM [1 / 2, 4 / 5, 19 / 20] =
        Except.ok
          { base_cost := base, mean_cost := base, std_dev := 0,
            percentiles := [(1 : ℚ) / 2, 4 / 5, 19 / 20].map (fun l => (pKey l, base)),
            min_cost := base, max_cost := base, iterations := iterations,
            risk_factors_applied := [], sensitivities := [] } := rfl
    rw [hzero] at hrun
    injection hrun with h
    subst h
    refine ⟨base, base, base, ?_, le_refl _, le_refl _, ?_⟩
    · simp only [List.map_cons, List.map_nil, hk50, hk80, hk95]
    · intro kv hkv
      simp only [List.map_cons, List.map_nil, hk50, hk80, hk95, List.mem_cons,
        List.not_mem_nil, or_false] at hkv
      rcases hkv with rfl | rfl | rfl <;> exact ⟨le_refl _, le_refl _⟩
  · rw [runAnalysis_nonzero_def o iterations seed base factors corrM _ hz] at hrun
    rcases hp : pipelineMatrix o iterations seed factors corrM with e | M
    · rw [hp] at hrun
      cases hrun
    · rw [hp] at hrun
      injection hrun with h
      subst h
      refine ⟨round2 (npPercentile (riskAdjustedCosts base M) 50),
        round2 (npPercentile (riskAdjustedCosts base M) 80),
        round2 (npPercentile (riskAdjustedCosts base M) 95), ?_, ?_, ?_, ?_⟩
      · simp only [List.map_cons, List.map_nil, hk50, hk80, hk95, e50, e80, e95]
      · exact round2_mono (npPercentile_mono (riskAdjustedCosts base M)
          (by norm_num) (by norm_num) (by norm_num))
      · exact round2_mono (npPercentile_mono (riskAdjustedCosts base M)
          (by norm_num) (by norm_num) (by norm_num))
      · intro kv hkv
        simp only [List.map_cons, List.map_nil, hk50, hk80, hk95, e50, e80, e95,
          List.mem_cons, List.not_mem_nil, or_false] at hkv
        rcases hkv with rfl | rfl | rfl
        · exact ⟨round2_mono (npPercentile_between (riskAdjustedCosts base M)
              (by norm_num) (by norm_num)).1,
            round2_mono (npPercentile_between (riskAdjustedCosts base M)
              (by norm_num) (by norm_num)).2⟩
        · exact ⟨round2_mono (npPercentile_between (riskAdjustedCosts base M)
              (by norm_num) (by norm_num)).1,
            round2_mono (npPercentile_between (riskAdjustedCosts base M)
              (by norm_num) (by norm_num)).2⟩
        · exact ⟨round2_mono (npPercentile_between (riskAdjustedCosts base M)
              (by norm_num) (by norm_num)).1,
            round2_mono (npPercentile_between (riskAdjustedCosts base M)
              (by norm_num) (by norm_num)).2⟩

theorem claim_C7_witness :
    ∃ v50 v80 v95,
      SimResult.percentiles
          { base_cost := 100, mean_cost := 100, std_dev := 0,
            percentiles := [("p50", 100), ("p80", 100), ("p95", 100)],
            min_cost := 100, max_cost := 100, iterations := 5,
            risk_factors_applied := [], sensitivities := [] } =
        [("p50", v50), ("p80", v80), ("p95", v95)] ∧
      v50 ≤ v80 ∧ v80 ≤ v95 ∧
      ∀ kv ∈ SimResult.percentiles
          { base_cost := 100, mean_cost := 100, std_dev := 0,
            percentiles := [("p50", 100), ("p80", 100), ("p95", 100)],
            min_cost := 100, max_cost := 100, iterations := 5,
            risk_factors_applied := [], sensitivities := [] },
        SimResult.min_cost
            { base_cost := 100, mean_cost := 100, std_dev := 0,
              percentiles := [("p50", 100), ("p80", 100), ("p95", 100)],
              min_cost := 100, max_cost := 100, iterations := 5,
              risk_factors_applied := [], sensitivities := [] } ≤ kv.2 ∧
          kv.2 ≤ SimResult.max_cost
            { base_cost := 100, mean_cost := 100, std_dev := 0,
              percentiles := [("p50", 100), ("p80", 100), ("p95", 100)],
              min_cost := 100, max_cost := 100, iterations := 5,
              risk_factors_applied := [], sensitivities := [] } :=
  claim_C7_percentile_monotonicity oracle0 5 0 100 [] none
    { base_cost := 100, mean_cost := 100, std_dev := 0,
      percentiles := [("p50", 100), ("p80", 100), ("p95", 100)],
      min_cost := 100, max_cost := 100, iterations := 5,
      risk_factors_applied := [], sensitivities := [] }
    (by with_unfolding_all decide)

end Apex
